import Mathlib

/-!
Verification of the mwalib observation-context builder and tiled read path.

The repository ships the C interface header (src/include/mwalib.h) and an
example driver; the implementation behind the interface is not part of the
source tree.  Following the specification (spec.md), the definitions below
model the data tables and operations that the interface exposes: the
coarse-channel mapper, the baseline enumeration, the timestep grid builder,
the coarse-channel frequency table, the tile reader with its two output
layouts, and the correlator-context constructor.  Machine integers from the
header (uint32_t, uint64_t, uintptr_t) are modelled as natural numbers, with
an explicit modulus 2^32 where 32-bit wraparound could matter; complex
visibilities are modelled as pairs of integers.
-/

/-- Modelled from the spec: split index of the coarse-channel mapper (spec
section 4.3 step 2, implementation not in the source tree) — the count of
receiver channel numbers that are at most 128. -/
def splitIndex (channels : List Nat) : Nat :=
  channels.countP (fun c => c ≤ 128)

/-- Modelled from the spec: the effective correlator order of the
coarse-channel mapper (spec section 4.3 steps 1-3, implementation not in the
source tree).  The receiver channel list is sorted ascending; channels with
receiver number at most 128 keep that ascending order, channels above 128
are sorted descending by receiver number. -/
def correlatorOrder (channels : List Nat) : List Nat :=
  (List.insertionSort (fun a b : Nat => a ≤ b) channels).take
      ((List.insertionSort (fun a b : Nat => a ≤ b) channels).countP (fun c => c ≤ 128)) ++
    List.insertionSort (fun a b : Nat => a ≥ b)
      ((List.insertionSort (fun a b : Nat => a ≤ b) channels).drop
        ((List.insertionSort (fun a b : Nat => a ≤ b) channels).countP (fun c => c ≤ 128)))

/-- Modelled from the spec: for Legacy/OldLegacy, gpubox_number k (1-indexed)
maps to the (k-1)-th element of the effective correlator order (spec section
4.3 step 4, implementation not in the source tree). -/
def legacyGpuboxChannel (channels : List Nat) (k : Nat) : Nat :=
  (correlatorOrder channels).getD (k - 1) 0

lemma take_countP_le (l : List Nat) (hl : List.Sorted (fun a b : Nat => a ≤ b) l) :
    ∀ x ∈ l.take (l.countP (fun c => c ≤ 128)), x ≤ 128 := by
  induction l with
  | nil => simp
  | cons a t ih =>
    rcases List.sorted_cons.mp hl with ⟨ha, ht⟩
    by_cases hc : a ≤ 128
    · rw [List.countP_cons_of_pos _ _ (by simpa using hc)]
      intro x hx
      rw [List.take_succ_cons] at hx
      rcases List.mem_cons.mp hx with rfl | hx
      · exact hc
      · exact ih ht x hx
    · have hzero : (a :: t).countP (fun c => c ≤ 128) = 0 := by
        rw [List.countP_cons_of_neg _ _ (by simpa using hc)]
        rw [List.countP_eq_zero]
        intro x hx
        have := ha x hx
        simpa using (by omega : ¬ x ≤ 128)
      rw [hzero]
      intro x hx
      simp at hx

lemma drop_countP_gt (l : List Nat) (hl : List.Sorted (fun a b : Nat => a ≤ b) l) :
    ∀ x ∈ l.drop (l.countP (fun c => c ≤ 128)), 128 < x := by
  induction l with
  | nil => simp
  | cons a t ih =>
    rcases List.sorted_cons.mp hl with ⟨ha, ht⟩
    by_cases hc : a ≤ 128
    · rw [List.countP_cons_of_pos _ _ (by simpa using hc)]
      intro x hx
      rw [List.drop_succ_cons] at hx
      exact ih ht x hx
    · have hzero : (a :: t).countP (fun c => c ≤ 128) = 0 := by
        rw [List.countP_cons_of_neg _ _ (by simpa using hc)]
        rw [List.countP_eq_zero]
        intro x hx
        have := ha x hx
        simpa using (by omega : ¬ x ≤ 128)
      rw [hzero]
      intro x hx
      rw [List.drop_zero] at hx
      rcases List.mem_cons.mp hx with rfl | hx
      · omega
      · exact lt_of_lt_of_le (by omega) (ha x hx)

/-- C1: for every list of metafits receiver channel numbers, the effective
correlator order is a permutation of the input whose first splitIndex
elements are the channels with receiver number at most 128 in ascending
order, followed by the channels with receiver number above 128 in descending
order; Legacy/OldLegacy gpubox_number k (1-indexed) maps to the (k-1)-th
element of that order; and CHANNELS=[120,121,122,123,129,130,131,132] yields
correlator order 120,121,122,123,132,131,130,129. -/
theorem claim_C1_coarse_channel_order (channels : List Nat) :
    (correlatorOrder channels).Perm channels ∧
    (∀ x ∈ (correlatorOrder channels).take (splitIndex channels), x ≤ 128) ∧
    List.Sorted (fun a b : Nat => a ≤ b)
      ((correlatorOrder channels).take (splitIndex channels)) ∧
    (∀ x ∈ (correlatorOrder channels).drop (splitIndex channels), 128 < x) ∧
    List.Sorted (fun a b : Nat => a ≥ b)
      ((correlatorOrder channels).drop (splitIndex channels)) ∧
    (∀ k, legacyGpuboxChannel channels k = (correlatorOrder channels).getD (k - 1) 0) ∧
    correlatorOrder [120, 121, 122, 123, 129, 130, 131, 132] =
      [120, 121, 122, 123, 132, 131, 130, 129] := by
  set sorted := List.insertionSort (fun a b : Nat => a ≤ b) channels with hsorted
  have hsortperm : sorted.Perm channels := List.perm_insertionSort _ channels
  have hss : List.Sorted (fun a b : Nat => a ≤ b) sorted :=
    List.sorted_insertionSort _ channels
  have hcount : sorted.countP (fun c => c ≤ 128) = splitIndex channels := by
    unfold splitIndex
    exact hsortperm.countP_eq _
  have hlen : (sorted.take (splitIndex channels)).length = splitIndex channels := by
    rw [List.length_take]
    exact min_eq_left (hcount ▸ List.countP_le_length _)
  have hdef : correlatorOrder channels =
      sorted.take (splitIndex channels) ++
        List.insertionSort (fun a b : Nat => a ≥ b)
          (sorted.drop (splitIndex channels)) := by
    unfold correlatorOrder
    rw [hcount]
  have htake : (correlatorOrder channels).take (splitIndex channels) =
      sorted.take (splitIndex channels) := by
    rw [hdef, List.take_left' hlen]
  have hdrop : (correlatorOrder channels).drop (splitIndex channels) =
      List.insertionSort (fun a b : Nat => a ≥ b)
        (sorted.drop (splitIndex channels)) := by
    rw [hdef, List.drop_left' hlen]
  have hdescperm : (List.insertionSort (fun a b : Nat => a ≥ b)
      (sorted.drop (splitIndex channels))).Perm (sorted.drop (splitIndex channels)) :=
    List.perm_insertionSort _ _
  refine ⟨?_, ?_, ?_, ?_, ?_, fun k => rfl, by decide⟩
  · rw [hdef]
    have h1 : (sorted.take (splitIndex channels) ++
        List.insertionSort (fun a b : Nat => a ≥ b)
          (sorted.drop (splitIndex channels))).Perm
        (sorted.take (splitIndex channels) ++ sorted.drop (splitIndex channels)) :=
      List.Perm.append_left _ hdescperm
    have h2 : sorted.take (splitIndex channels) ++ sorted.drop (splitIndex channels) =
        sorted := List.take_append_drop _ _
    exact h1.trans (by rw [h2]; exact hsortperm)
  · intro x hx
    rw [htake] at hx
    exact take_countP_le sorted hss x (by rw [hcount]; exact hx)
  · rw [htake]
    exact List.Pairwise.sublist (List.take_sublist _ _) hss
  · intro x hx
    rw [hdrop] at hx
    have hx2 : x ∈ sorted.drop (splitIndex channels) := hdescperm.mem_iff.mp hx
    exact drop_countP_gt sorted hss x (by rw [hcount]; exact hx2)
  · rw [hdrop]
    exact List.sorted_insertionSort _ _

/-- Witness for C1 at the split CHANNELS example from the spec. -/
theorem claim_C1_witness :
    (correlatorOrder [120, 121, 122, 123, 129, 130, 131, 132]).Perm
      [120, 121, 122, 123, 129, 130, 131, 132] ∧
    legacyGpuboxChannel [120, 121, 122, 123, 129, 130, 131, 132] 5 = 132 ∧
    (120 : Nat) ≤ 128 := by
  have h := claim_C1_coarse_channel_order [120, 121, 122, 123, 129, 130, 131, 132]
  refine ⟨h.1, ?_, h.2.1 120 (by decide)⟩
  rw [h.2.2.2.2.2.1 5, h.2.2.2.2.2.2]
  rfl

/-- Modelled from the spec: baseline enumeration (spec section 4.1,
implementation not in the source tree) — for i in 0..N-1, for j in i..N-1,
emit (i, j) in that order, autocorrelations included. -/
def baselines (n : Nat) : List (Nat × Nat) :=
  (List.range n).flatMap (fun i => (List.range' i (n - i)).map (fun j => (i, j)))

/-- Lexicographic order on antenna index pairs. -/
def lexLt (p q : Nat × Nat) : Prop :=
  p.1 < q.1 ∨ (p.1 = q.1 ∧ p.2 < q.2)

lemma sum_range_sub_mul_two (n : Nat) :
    (((List.range n).map (fun i => n - i)).sum) * 2 = n * (n + 1) := by
  induction n with
  | zero => simp
  | succ m ih =>
    rw [List.range_succ_eq_map]
    simp only [List.map_cons, List.map_map, List.sum_cons]
    have hmap : (List.range m).map ((fun i => m + 1 - i) ∘ Nat.succ) =
        (List.range m).map (fun i => m - i) := by
      apply List.map_congr_left
      intro x _
      simp only [Function.comp_apply]
      omega
    rw [hmap, Nat.sub_zero, Nat.add_mul, ih, Nat.mul_comm m (m + 1), ← Nat.mul_add,
      Nat.add_comm 2 m, Nat.add_assoc]

lemma baselines_length_mul_two (n : Nat) : (baselines n).length * 2 = n * (n + 1) := by
  rw [baselines, List.length_flatMap]
  have hmap : List.map
      (List.length ∘ fun i => (List.range' i (n - i)).map (fun j => (i, j)))
      (List.range n) = (List.range n).map (fun i => n - i) := by
    apply List.map_congr_left
    intro x _
    simp [List.length_range']
  rw [hmap, sum_range_sub_mul_two]

lemma mem_baselines (n i j : Nat) : (i, j) ∈ baselines n ↔ i ≤ j ∧ j < n := by
  unfold baselines
  rw [List.mem_flatMap]
  constructor
  · rintro ⟨a, ha, hmem⟩
    rw [List.mem_map] at hmem
    rcases hmem with ⟨b, hb, heq⟩
    rw [List.mem_range] at ha
    rw [List.mem_range'] at hb
    rcases hb with ⟨k, hk, rfl⟩
    have h1 : a = i ∧ a + 1 * k = j := by
      constructor
      · exact congrArg Prod.fst heq
      · exact congrArg Prod.snd heq
    omega
  · rintro ⟨hij, hjn⟩
    refine ⟨i, by rw [List.mem_range]; omega, ?_⟩
    rw [List.mem_map]
    exact ⟨j, by rw [List.mem_range']; exact ⟨j - i, by omega, by omega⟩, rfl⟩

lemma baselines_pairwise (n : Nat) : List.Pairwise lexLt (baselines n) := by
  rw [baselines, List.pairwise_flatMap]
  constructor
  · intro a _
    rw [List.pairwise_map]
    apply List.Pairwise.imp ?_ (List.pairwise_lt_range' a (n - a))
    intro x y hxy
    exact Or.inr ⟨rfl, hxy⟩
  · apply List.Pairwise.imp ?_ (List.pairwise_lt_range n)
    intro a b hab
    intro x hx y hy
    rw [List.mem_map] at hx hy
    rcases hx with ⟨xa, _, rfl⟩
    rcases hy with ⟨yb, _, rfl⟩
    exact Or.inl hab

/-- C4: for every antenna count N, the baseline list has exactly N(N+1)/2
entries, every baseline satisfies ant1 at most ant2 with ant2 below N, the
list is in strict lexicographic order, and every autocorrelation (i, i) with
i below N is present. -/
theorem claim_C4_baselines (n : Nat) :
    (baselines n).length = n * (n + 1) / 2 ∧
    (∀ p ∈ baselines n, p.1 ≤ p.2 ∧ p.2 < n) ∧
    List.Pairwise lexLt (baselines n) ∧
    (∀ i, i < n → (i, i) ∈ baselines n) := by
  refine ⟨?_, ?_, baselines_pairwise n, ?_⟩
  · have := baselines_length_mul_two n
    omega
  · intro p hp
    exact (mem_baselines n p.1 p.2).mp (by rwa [Prod.mk.eta])
  · intro i hi
    exact (mem_baselines n i i).mpr ⟨le_refl i, hi⟩

/-- Witness for C4 at N = 3. -/
theorem claim_C4_witness :
    (baselines 3).length = 6 ∧ ((1, 2) : Nat × Nat).1 ≤ ((1, 2) : Nat × Nat).2 ∧
    ((2, 2) : Nat × Nat) ∈ baselines 3 := by
  have h := claim_C4_baselines 3
  exact ⟨h.1.trans (by norm_num), (h.2.1 (1, 2) (by decide)).1, h.2.2.2 2 (by norm_num)⟩

/-- Modelled from the spec: the timestep grid builder (spec section 4.4,
implementation not in the source tree) — the set of HDU timestamps, in
milliseconds, that appear in every gpubox file, sorted ascending. -/
def commonTimesteps (files : List (List Nat)) : List Nat :=
  List.insertionSort (fun a b : Nat => a ≤ b)
    (((files.headD []).dedup).filter (fun t => files.all (fun f => decide (t ∈ f))))

/-- Modelled from the spec: start_unix_ms is the first common timestep. -/
def start_unix_time_ms (files : List (List Nat)) : Nat :=
  (commonTimesteps files).headD 0

/-- Modelled from the spec: end_unix_ms is the last common timestep plus the
integration time. -/
def end_unix_time_ms (files : List (List Nat)) (integration : Nat) : Nat :=
  (commonTimesteps files).getLastD 0 + integration

/-- Modelled from the spec: duration_ms is end minus start. -/
def duration_ms (files : List (List Nat)) (integration : Nat) : Nat :=
  end_unix_time_ms files integration - start_unix_time_ms files

lemma mem_commonTimesteps (files : List (List Nat)) (hne : files ≠ []) (t : Nat) :
    t ∈ commonTimesteps files ↔ ∀ f ∈ files, t ∈ f := by
  unfold commonTimesteps
  rw [(List.perm_insertionSort _ _).mem_iff, List.mem_filter, List.mem_dedup]
  constructor
  · rintro ⟨_, hall⟩
    rw [List.all_eq_true] at hall
    intro f hf
    simpa using hall f hf
  · intro h
    have hhead : files.headD [] ∈ files := by
      cases files with
      | nil => exact absurd rfl hne
      | cons f fs => exact List.mem_cons_self _ _
    refine ⟨h _ hhead, ?_⟩
    rw [List.all_eq_true]
    intro f hf
    simpa using h f hf

lemma commonTimesteps_sorted_lt (files : List (List Nat)) :
    List.Sorted (fun a b : Nat => a < b) (commonTimesteps files) := by
  have hnd : (((files.headD []).dedup).filter
      (fun t => files.all (fun f => decide (t ∈ f)))).Nodup :=
    (List.nodup_dedup _).filter _
  have hnd2 : (commonTimesteps files).Nodup :=
    hnd.perm (List.perm_insertionSort _ _).symm
  exact List.Sorted.lt_of_le (List.sorted_insertionSort _ _) hnd2

lemma commonTimesteps_eq_range_map (files : List (List Nat)) (T a m : Nat)
    (hT : 0 < T) (hne : files ≠ [])
    (hAP : ∀ t, (∀ f ∈ files, t ∈ f) ↔ ∃ k, k < m ∧ t = a + k * T) :
    commonTimesteps files = (List.range m).map (fun k => a + k * T) := by
  have hnd2 : (commonTimesteps files).Nodup :=
    (commonTimesteps_sorted_lt files).nodup
  have hndmap : ((List.range m).map (fun k => a + k * T)).Nodup := by
    apply List.Nodup.map_on ?_ (List.nodup_range m)
    intro x _ y _ hxy
    have : x * T = y * T := by omega
    exact Nat.eq_of_mul_eq_mul_right hT this
  have hsorted2 : List.Sorted (fun a b : Nat => a < b)
      ((List.range m).map (fun k => a + k * T)) := by
    rw [List.Sorted, List.pairwise_map]
    apply List.Pairwise.imp ?_ (List.pairwise_lt_range m)
    intro x y hxy
    have : x * T < y * T := (Nat.mul_lt_mul_right hT).mpr hxy
    omega
  apply List.eq_of_perm_of_sorted ?_ (commonTimesteps_sorted_lt files) hsorted2
  rw [List.perm_ext_iff_of_nodup hnd2 hndmap]
  intro t
  rw [mem_commonTimesteps files hne, hAP, List.mem_map]
  constructor
  · rintro ⟨k, hk, rfl⟩
    exact ⟨k, List.mem_range.mpr hk, rfl⟩
  · rintro ⟨k, hk, rfl⟩
    exact ⟨k, List.mem_range.mp hk, rfl⟩

/-- C2: the timestep table is the set of HDU timestamps present in every
gpubox file, sorted strictly ascending; start_unix_ms is the first timestep,
end_unix_ms is the last timestep plus the integration time, duration is end
minus start; when the common timestamps form an arithmetic progression with
step integration_time_ms (the aligned-batches invariant of spec section
4.2), consecutive timesteps differ by exactly integration_time_ms; and HDU
times [1000,1001,1002] and [1002,1003] with integration 1000 ms give
timesteps [1002], start 1002, end 2002. -/
theorem claim_C2_timestep_grid (files : List (List Nat)) (T : Nat) :
    (files ≠ [] → ∀ t, (t ∈ commonTimesteps files ↔ ∀ f ∈ files, t ∈ f)) ∧
    List.Sorted (fun a b : Nat => a < b) (commonTimesteps files) ∧
    start_unix_time_ms files = (commonTimesteps files).headD 0 ∧
    end_unix_time_ms files T = (commonTimesteps files).getLastD 0 + T ∧
    duration_ms files T = end_unix_time_ms files T - start_unix_time_ms files ∧
    (∀ a m, 0 < T → files ≠ [] →
      (∀ t, (∀ f ∈ files, t ∈ f) ↔ ∃ k, k < m ∧ t = a + k * T) →
      ∀ i, i + 1 < (commonTimesteps files).length →
        (commonTimesteps files).getD (i + 1) 0 = (commonTimesteps files).getD i 0 + T) ∧
    (commonTimesteps [[1000, 1001, 1002], [1002, 1003]] = [1002] ∧
      start_unix_time_ms [[1000, 1001, 1002], [1002, 1003]] = 1002 ∧
      end_unix_time_ms [[1000, 1001, 1002], [1002, 1003]] 1000 = 2002) := by
  refine ⟨fun hne t => mem_commonTimesteps files hne t,
    commonTimesteps_sorted_lt files, rfl, rfl, rfl, ?_, by decide, by decide, by decide⟩
  intro a m hT hne hAP i hi
  rw [commonTimesteps_eq_range_map files T a m hT hne hAP] at hi ⊢
  rw [List.length_map, List.length_range] at hi
  rw [List.getD_eq_getElem?_getD, List.getD_eq_getElem?_getD,
    List.getElem?_map, List.getElem?_map,
    List.getElem?_range (by omega : i + 1 < m), List.getElem?_range (by omega : i < m)]
  simp only [Option.map_some', Option.getD_some]
  ring

/-- Witness for C2 on aligned 1000 ms batches. -/
theorem claim_C2_witness :
    (commonTimesteps [[1000, 2000, 3000], [2000, 3000, 4000]]).getD 1 0 =
      (commonTimesteps [[1000, 2000, 3000], [2000, 3000, 4000]]).getD 0 0 + 1000 ∧
    (1002 : Nat) ∈ commonTimesteps [[1000, 1001, 1002], [1002, 1003]] := by
  have h := claim_C2_timestep_grid [[1000, 2000, 3000], [2000, 3000, 4000]] 1000
  have h2 := claim_C2_timestep_grid [[1000, 1001, 1002], [1002, 1003]] 1000
  constructor
  · apply h.2.2.2.2.2.1 2000 2 (by norm_num) (by simp)
    · intro t
      constructor
      · intro hall
        have h1 := hall [1000, 2000, 3000] (by simp)
        have hmem2 := hall [2000, 3000, 4000] (by simp)
        simp at h1 hmem2
        rcases h1 with rfl | rfl | rfl
        · omega
        · exact ⟨0, by norm_num⟩
        · exact ⟨1, by norm_num⟩
      · rintro ⟨k, hk, rfl⟩
        intro f hf
        simp at hf
        interval_cases k <;> rcases hf with rfl | rfl <;> simp
    · decide
  · rw [(h2.1 (by simp)) 1002]
    intro f hf
    simp at hf
    rcases hf with rfl | rfl <;> simp

/-- The unsigned 32-bit modulus. -/
def U32 : Nat := 4294967296

/-- Coarse channel record, fields as in mwalibCoarseChannel
(src/include/mwalib.h lines 95-126); frequencies are unsigned 32-bit. -/
structure CoarseChannel where
  receiver_channel_number : Nat
  channel_width_hz : Nat
  channel_start_hz : Nat
  channel_centre_hz : Nat
  channel_end_hz : Nat

/-- Modelled from the spec: coarse-channel frequency synthesis (spec section
4.3 step 5, implementation not in the source tree) — centre is the receiver
channel number times 1.28 MHz, width 1.28 MHz, start and end are centre
minus and plus 0.64 MHz, all in unsigned 32-bit arithmetic. -/
def mkCoarseChannel (r : Nat) : CoarseChannel :=
  { receiver_channel_number := r
    channel_width_hz := 1280000
    channel_start_hz := (r * 1280000 % U32 + (U32 - 640000)) % U32
    channel_centre_hz := r * 1280000 % U32
    channel_end_hz := (r * 1280000 % U32 + 640000) % U32 }

/-- Modelled from the spec: the coarse-channel table is sorted ascending by
centre frequency (spec section 4.3 step 5). -/
def coarseChannelTable (rs : List Nat) : List CoarseChannel :=
  List.insertionSort (fun a b => a.channel_centre_hz ≤ b.channel_centre_hz)
    (rs.map mkCoarseChannel)

instance : IsTotal CoarseChannel (fun a b => a.channel_centre_hz ≤ b.channel_centre_hz) :=
  ⟨fun a b => Nat.le_total a.channel_centre_hz b.channel_centre_hz⟩

instance : IsTrans CoarseChannel (fun a b => a.channel_centre_hz ≤ b.channel_centre_hz) :=
  ⟨fun _ _ _ => Nat.le_trans⟩

lemma mkCoarseChannel_receiver (r : Nat) :
    (mkCoarseChannel r).receiver_channel_number = r := rfl

lemma mkCoarseChannel_width (r : Nat) :
    (mkCoarseChannel r).channel_width_hz = 1280000 := rfl

lemma mkCoarseChannel_centre (r : Nat) :
    (mkCoarseChannel r).channel_centre_hz = r * 1280000 % U32 := rfl

lemma mkCoarseChannel_start (r : Nat) :
    (mkCoarseChannel r).channel_start_hz = (r * 1280000 % U32 + (U32 - 640000)) % U32 := rfl

lemma mkCoarseChannel_end (r : Nat) :
    (mkCoarseChannel r).channel_end_hz = (r * 1280000 % U32 + 640000) % U32 := rfl

/-- C5: in exact unsigned 32-bit arithmetic, every coarse channel built from
a receiver channel number between 1 and 255 has centre_hz equal to
receiver_channel_number times 1_280_000, width 1_280_000, start centre minus
640_000, end centre plus 640_000 (hence start plus width equals end), and
the table is sorted strictly ascending by centre_hz. -/
theorem claim_C5_coarse_channel_frequencies (rs : List Nat)
    (hr : ∀ r ∈ rs, 1 ≤ r ∧ r ≤ 255) (hnd : rs.Nodup) :
    (∀ ch ∈ coarseChannelTable rs,
      ch.channel_centre_hz = ch.receiver_channel_number * 1280000 ∧
      ch.channel_width_hz = 1280000 ∧
      ch.channel_start_hz = ch.channel_centre_hz - 640000 ∧
      ch.channel_end_hz = ch.channel_centre_hz + 640000 ∧
      ch.channel_start_hz + ch.channel_width_hz = ch.channel_end_hz) ∧
    List.Pairwise (fun a b => a.channel_centre_hz < b.channel_centre_hz)
      (coarseChannelTable rs) := by
  have hperm : (coarseChannelTable rs).Perm (rs.map mkCoarseChannel) :=
    List.perm_insertionSort _ _
  constructor
  · intro ch hch
    have hmem : ch ∈ rs.map mkCoarseChannel := hperm.mem_iff.mp hch
    rw [List.mem_map] at hmem
    rcases hmem with ⟨r, hrmem, rfl⟩
    obtain ⟨h1, h255⟩ := hr r hrmem
    rw [mkCoarseChannel_centre, mkCoarseChannel_start, mkCoarseChannel_end,
      mkCoarseChannel_receiver, mkCoarseChannel_width]
    unfold U32
    have hc : r * 1280000 % 4294967296 = r * 1280000 := Nat.mod_eq_of_lt (by omega)
    rw [hc]
    have hshift : r * 1280000 + (4294967296 - 640000) =
        (r * 1280000 - 640000) + 4294967296 := by omega
    rw [hshift, Nat.add_mod_right]
    have hstart : (r * 1280000 - 640000) % 4294967296 = r * 1280000 - 640000 :=
      Nat.mod_eq_of_lt (by omega)
    have hend : (r * 1280000 + 640000) % 4294967296 = r * 1280000 + 640000 :=
      Nat.mod_eq_of_lt (by omega)
    rw [hstart, hend]
    refine ⟨rfl, rfl, rfl, rfl, by omega⟩
  · have hsorted : List.Sorted (fun a b => a.channel_centre_hz ≤ b.channel_centre_hz)
        (coarseChannelTable rs) := List.sorted_insertionSort _ _
    have hmapnodup : ((rs.map mkCoarseChannel).map CoarseChannel.channel_centre_hz).Nodup := by
      rw [List.map_map]
      apply List.Nodup.map_on ?_ hnd
      intro x hx y hy hxy
      obtain ⟨hx1, hx255⟩ := hr x hx
      obtain ⟨hy1, hy255⟩ := hr y hy
      have hxlt : x * 1280000 < U32 :=
        lt_of_le_of_lt (Nat.mul_le_mul_right 1280000 hx255) (by norm_num [U32])
      have hylt : y * 1280000 < U32 :=
        lt_of_le_of_lt (Nat.mul_le_mul_right 1280000 hy255) (by norm_num [U32])
      simp only [Function.comp_apply, mkCoarseChannel_centre,
        Nat.mod_eq_of_lt hxlt, Nat.mod_eq_of_lt hylt] at hxy
      exact Nat.eq_of_mul_eq_mul_right (by norm_num) hxy
    have htab : ((coarseChannelTable rs).map CoarseChannel.channel_centre_hz).Nodup :=
      hmapnodup.perm (hperm.map _).symm
    have hpne : List.Pairwise
        (fun a b : CoarseChannel => a.channel_centre_hz ≠ b.channel_centre_hz)
        (coarseChannelTable rs) := List.pairwise_map.mp htab
    apply List.Pairwise.imp ?_ (hsorted.and hpne)
    intro a b hab
    exact lt_of_le_of_ne hab.1 hab.2

/-- Witness for C5 at receiver channels 131 and 129. -/
theorem claim_C5_witness :
    (mkCoarseChannel 131).channel_centre_hz = 131 * 1280000 ∧
    List.Pairwise (fun a b => a.channel_centre_hz < b.channel_centre_hz)
      (coarseChannelTable [131, 129]) := by
  have h := claim_C5_coarse_channel_frequencies [131, 129] (by decide) (by decide)
  have hmem : mkCoarseChannel 131 ∈ coarseChannelTable [131, 129] := by
    unfold coarseChannelTable
    exact (List.perm_insertionSort _ _).mem_iff.mpr
      (List.mem_map.mpr ⟨131, List.mem_cons_self _ _, rfl⟩)
  exact ⟨(h.1 (mkCoarseChannel 131) hmem).1, h.2⟩

/-- Complex multiplication on pairs (re, im) of integers. -/
def cmul (a b : Int × Int) : Int × Int :=
  (a.1 * b.1 - a.2 * b.2, a.1 * b.2 + a.2 * b.1)

/-- Complex conjugation on pairs (re, im): negate the imaginary component. -/
def cconj (a : Int × Int) : Int × Int :=
  (a.1, -a.2)

/-- Visibility polarisation combinations of the X/Y feeds. -/
inductive VisPol where
  | XX
  | XY
  | YX
  | YY

/-- Physical visibility of a baseline: the correlation product of the two
feed signals, the second conjugated, in the canonical upper-triangle
convention. -/
def trueVis (x y : Nat → Int × Int) : VisPol → Nat → Nat → Int × Int
  | VisPol.XX, i, j => cmul (x i) (cconj (x j))
  | VisPol.XY, i, j => cmul (x i) (cconj (y j))
  | VisPol.YX, i, j => cmul (y i) (cconj (x j))
  | VisPol.YY, i, j => cmul (y i) (cconj (y j))

/-- Modelled from the spec: the legacy wire layout (spec section 4.5 step 5,
implementation not in the source tree) packs baselines with ant1 at least
ant2 and stores the complex conjugate of the upper-triangle convention. -/
def legacyWire (x y : Nat → Int × Int) (p : VisPol) (a b : Nat) : Int × Int :=
  cconj (trueVis x y p b a)

/-- Modelled from the spec: the legacy-to-canonical remap (spec section 4.5
step 5, implementation not in the source tree) — swap ant1/ant2 and, for the
XY polarisation, negate the imaginary component. -/
def canonicalizeLegacy (w : VisPol → Nat → Nat → Int × Int) (p : VisPol) (i j : Nat) :
    Int × Int :=
  match p with
  | VisPol.XY => cconj (w VisPol.XY j i)
  | _ => w p j i

/-- C3: for every pair of per-antenna feed signals and every cross-pol
baseline (i, j) with i below j, the canonicalized legacy read satisfies
XY(i,j) = conj(YX(j,i)), and it recovers the canonical XY visibility. -/
theorem claim_C3_legacy_conjugation (x y : Nat → Int × Int) (i j : Nat) (_hij : i < j) :
    canonicalizeLegacy (legacyWire x y) VisPol.XY i j =
      cconj (trueVis x y VisPol.YX j i) ∧
    canonicalizeLegacy (legacyWire x y) VisPol.XY i j = trueVis x y VisPol.XY i j := by
  constructor <;>
    · simp only [canonicalizeLegacy, legacyWire, trueVis, cmul, cconj]
      apply Prod.ext <;> dsimp only <;> ring

/-- Concrete feed signal used in witnesses. -/
def sigX : Nat → Int × Int :=
  fun n => ((n : Int) + 1, 2 * (n : Int) + 3)

/-- Concrete feed signal used in witnesses. -/
def sigY : Nat → Int × Int :=
  fun n => (3 * (n : Int) + 2, (n : Int) + 5)

/-- Witness for C3 at baseline (0, 1) with concrete signals. -/
theorem claim_C3_witness :
    canonicalizeLegacy (legacyWire sigX sigY) VisPol.XY 0 1 =
      cconj (trueVis sigX sigY VisPol.YX 1 0) ∧
    canonicalizeLegacy (legacyWire sigX sigY) VisPol.XY 0 1 =
      trueVis sigX sigY VisPol.XY 0 1 :=
  claim_C3_legacy_conjugation sigX sigY 0 1 (by norm_num)

/-- Errors of the tile read path (spec section 4.5 contract). -/
inductive ReadError where
  | IndexOutOfRange
  | BufferTooSmall
  | FitsIoError

/-- Read-path view of a correlator context: table sizes, the auxiliary HDU
lookup (none is the missing-HDU sentinel), and the FITS accessor (none is an
I/O failure). -/
structure ReadCtx where
  num_timesteps : Nat
  num_coarse_channels : Nat
  num_timestep_coarse_channel_floats : Nat
  hdu_index : Nat → Nat → Option Nat
  fits_read : Nat → Option (List Int)

/-- Modelled from the spec: the tile reader (spec sections 4.4 and 4.5,
implementation not in the source tree) — out-of-range indices give
IndexOutOfRange, a too-small buffer gives BufferTooSmall, a FITS failure
gives FitsIoError, and a missing HDU for valid indices zero-fills the
buffer. -/
def read_tile (c : ReadCtx) (timestep_index coarse_channel_index buffer_len : Nat) :
    Except ReadError (List Int) :=
  if c.num_timesteps ≤ timestep_index then Except.error ReadError.IndexOutOfRange
  else if c.num_coarse_channels ≤ coarse_channel_index then
    Except.error ReadError.IndexOutOfRange
  else if buffer_len < c.num_timestep_coarse_channel_floats then
    Except.error ReadError.BufferTooSmall
  else
    match c.hdu_index timestep_index coarse_channel_index with
    | none => Except.ok (List.replicate c.num_timestep_coarse_channel_floats 0)
    | some h =>
      match c.fits_read h with
      | none => Except.error ReadError.FitsIoError
      | some data => Except.ok data

/-- C6: read_tile fails exactly when a precondition is violated or FITS I/O
fails — IndexOutOfRange for an out-of-range timestep or coarse-channel
index, BufferTooSmall for a buffer below floats_per_hdu, FitsIoError on I/O
failure — while a missing HDU at valid indices is not an error and yields a
zero-filled buffer. -/
theorem claim_C6_read_error_conditions (c : ReadCtx) (t ch bl : Nat) :
    (c.num_timesteps ≤ t ∨ c.num_coarse_channels ≤ ch →
      read_tile c t ch bl = Except.error ReadError.IndexOutOfRange) ∧
    (t < c.num_timesteps → ch < c.num_coarse_channels →
      bl < c.num_timestep_coarse_channel_floats →
      read_tile c t ch bl = Except.error ReadError.BufferTooSmall) ∧
    (t < c.num_timesteps → ch < c.num_coarse_channels →
      c.num_timestep_coarse_channel_floats ≤ bl →
      c.hdu_index t ch = none →
      read_tile c t ch bl =
        Except.ok (List.replicate c.num_timestep_coarse_channel_floats 0)) ∧
    (t < c.num_timesteps → ch < c.num_coarse_channels →
      c.num_timestep_coarse_channel_floats ≤ bl →
      ∀ h, c.hdu_index t ch = some h → c.fits_read h = none →
        read_tile c t ch bl = Except.error ReadError.FitsIoError) ∧
    ((∃ e, read_tile c t ch bl = Except.error e) ↔
      (c.num_timesteps ≤ t ∨ c.num_coarse_channels ≤ ch ∨
        bl < c.num_timestep_coarse_channel_floats ∨
        ∃ h, c.hdu_index t ch = some h ∧ c.fits_read h = none)) := by
  refine ⟨?_, ?_, ?_, ?_, ?_⟩
  · intro hor
    by_cases h1 : c.num_timesteps ≤ t
    · simp [read_tile, h1]
    · rcases hor with h | h
      · exact absurd h h1
      · simp [read_tile, h1, h]
  · intro h1 h2 h3
    simp [read_tile, not_le.mpr h1, not_le.mpr h2, h3]
  · intro h1 h2 h3 hnone
    simp [read_tile, not_le.mpr h1, not_le.mpr h2, not_lt.mpr h3, hnone]
  · intro h1 h2 h3 h hsome hfail
    simp [read_tile, not_le.mpr h1, not_le.mpr h2, not_lt.mpr h3, hsome, hfail]
  · by_cases h1 : c.num_timesteps ≤ t
    · simp [read_tile, h1]
    · by_cases h2 : c.num_coarse_channels ≤ ch
      · simp [read_tile, h1, h2]
      · by_cases h3 : bl < c.num_timestep_coarse_channel_floats
        · simp [read_tile, h1, h2, h3]
        · cases hopt : c.hdu_index t ch with
          | none => simp [read_tile, h1, h2, h3, hopt]
          | some h =>
            cases hread : c.fits_read h with
            | none => simp [read_tile, h1, h2, h3, hopt, hread]
            | some data => simp [read_tile, h1, h2, h3, hopt, hread]

/-- Concrete read context used in witnesses: two timesteps, two coarse
channels, eight floats per HDU; HDU (0, 0) is present and readable, HDU
(1, 0) is missing, HDU (1, 1) is present but fails FITS I/O. -/
def sampleCtx : ReadCtx :=
  { num_timesteps := 2
    num_coarse_channels := 2
    num_timestep_coarse_channel_floats := 8
    hdu_index := fun t ch => if t = 1 ∧ ch = 0 then none else some (t * 2 + ch)
    fits_read := fun h => if h = 4 then none else some (List.replicate 8 1) }

/-- Witness for C6 on the concrete read context. -/
theorem claim_C6_witness :
    read_tile sampleCtx 5 0 8 = Except.error ReadError.IndexOutOfRange ∧
    read_tile sampleCtx 0 0 3 = Except.error ReadError.BufferTooSmall ∧
    read_tile sampleCtx 1 0 8 = Except.ok (List.replicate 8 0) := by
  have h5 := claim_C6_read_error_conditions sampleCtx 5 0 8
  have h3 := claim_C6_read_error_conditions sampleCtx 0 0 3
  have h1 := claim_C6_read_error_conditions sampleCtx 1 0 8
  exact ⟨h5.1 (Or.inl (by norm_num [sampleCtx])),
    h3.2.1 (by norm_num [sampleCtx]) (by norm_num [sampleCtx]) (by norm_num [sampleCtx]),
    h1.2.2.1 (by norm_num [sampleCtx]) (by norm_num [sampleCtx]) (by norm_num [sampleCtx])
      (by simp [sampleCtx])⟩

/-- Errors of context construction used by the claims. -/
inductive BuildError where
  | InvalidMetafits
  | InconsistentBatches
  | NoCommonTimesteps

/-- Correlator context value produced by construction, fields as in
mwalibCorrelatorMetadata (src/include/mwalib.h lines 133-204). -/
structure CorrelatorCtx where
  timesteps : List Nat
  start_unix_time_milliseconds : Nat
  end_unix_time_milliseconds : Nat
  duration_milliseconds : Nat

/-- Modelled from the spec: correlator-context construction (spec sections
4.2-4.4 and 7, implementation not in the source tree) — every earlier-stage
error aborts construction, and an empty timestamp intersection yields
NoCommonTimesteps; on success the context holds the common-timestep tables. -/
def build_correlator_context (batches_ok : Bool) (files : List (List Nat)) (T : Nat) :
    Except BuildError CorrelatorCtx :=
  if batches_ok = false then Except.error BuildError.InconsistentBatches
  else if commonTimesteps files = [] then Except.error BuildError.NoCommonTimesteps
  else Except.ok
    { timesteps := commonTimesteps files
      start_unix_time_milliseconds := start_unix_time_ms files
      end_unix_time_milliseconds := end_unix_time_ms files T
      duration_milliseconds := duration_ms files T }

/-- C7: every error during construction aborts it and yields no context at
all, and an empty timestamp intersection across the gpubox files fails with
NoCommonTimesteps; a returned context always carries the full
common-timestep tables. -/
theorem claim_C7_construction_atomicity (b : Bool) (files : List (List Nat)) (T : Nat) :
    (b = true → commonTimesteps files = [] →
      build_correlator_context b files T = Except.error BuildError.NoCommonTimesteps) ∧
    (∀ ctx, build_correlator_context b files T = Except.ok ctx →
      b = true ∧ commonTimesteps files ≠ [] ∧
      ctx.timesteps = commonTimesteps files ∧
      ctx.start_unix_time_milliseconds = start_unix_time_ms files ∧
      ctx.end_unix_time_milliseconds = end_unix_time_ms files T ∧
      ctx.duration_milliseconds = duration_ms files T) ∧
    (∀ e, build_correlator_context b files T = Except.error e →
      ¬ ∃ ctx, build_correlator_context b files T = Except.ok ctx) := by
  refine ⟨?_, ?_, ?_⟩
  · intro hb hempty
    simp [build_correlator_context, hb, hempty]
  · intro ctx hctx
    cases b with
    | false => simp [build_correlator_context] at hctx
    | true =>
      by_cases hempty : commonTimesteps files = []
      · simp [build_correlator_context, hempty] at hctx
      · simp [build_correlator_context, hempty] at hctx
        exact ⟨rfl, hempty, by rw [← hctx], by rw [← hctx], by rw [← hctx], by rw [← hctx]⟩
  · intro e he ⟨ctx, hctx⟩
    rw [he] at hctx
    exact Except.noConfusion hctx

/-- Witness for C7: disjoint single-HDU gpubox files give an empty
intersection and construction fails with NoCommonTimesteps. -/
theorem claim_C7_witness :
    build_correlator_context true [[1000], [2000]] 500 =
      Except.error BuildError.NoCommonTimesteps :=
  (claim_C7_construction_atomicity true [[1000], [2000]] 500).1 rfl (by decide)

/-- Modelled from the spec: reads do not mutate shared state (spec section
5, implementation not in the source tree) — the shared state is threaded
through the read unchanged. -/
def read_tile_threaded {σ : Type} (c : ReadCtx) (s : σ) (t ch bl : Nat) :
    σ × Except ReadError (List Int) :=
  (s, read_tile c t ch bl)

/-- C9: reading the same (timestep, coarse channel) pair twice in sequence
from the same context yields identical output, because a read returns the
shared state unchanged. -/
theorem claim_C9_read_determinism {σ : Type} (c : ReadCtx) (s : σ) (t ch bl : Nat) :
    (read_tile_threaded c s t ch bl).1 = s ∧
    (read_tile_threaded c (read_tile_threaded c s t ch bl).1 t ch bl).2 =
      (read_tile_threaded c s t ch bl).2 :=
  ⟨rfl, rfl⟩

/-- Modelled from the spec: num_gpubox_files is the number of gpubox files
per batch (header comment at src/include/mwalib.h lines 200-203,
implementation not in the source tree). -/
def num_gpubox_files (batches : List (List Nat)) : Nat :=
  (batches.headD []).length

/-- Total number of gpubox files supplied to the constructor, summed over
all batches. -/
def total_gpubox_files (batches : List (List Nat)) : Nat :=
  (batches.map List.length).sum

/-- C10: for consistent batches of m files each, num_gpubox_files is m, the
per-batch count — equal to the total file count divided by the number of
batches, and strictly below the total whenever there are at least two
non-empty batches. -/
theorem claim_C10_gpubox_files_per_batch (batches : List (List Nat)) (m : Nat)
    (hne : batches ≠ []) (hm : ∀ b ∈ batches, b.length = m) :
    num_gpubox_files batches = m ∧
    total_gpubox_files batches = batches.length * m ∧
    num_gpubox_files batches = total_gpubox_files batches / batches.length ∧
    (2 ≤ batches.length → 1 ≤ m →
      num_gpubox_files batches < total_gpubox_files batches) := by
  have hhead : batches.headD [] ∈ batches := by
    cases batches with
    | nil => exact absurd rfl hne
    | cons f fs => exact List.mem_cons_self _ _
  have h1 : num_gpubox_files batches = m := hm _ hhead
  have h2 : total_gpubox_files batches = batches.length * m := by
    unfold total_gpubox_files
    have hrep : batches.map List.length = List.replicate batches.length m := by
      rw [List.eq_replicate_iff]
      refine ⟨by simp, ?_⟩
      intro x hx
      rcases List.mem_map.mp hx with ⟨bb, hbb, rfl⟩
      exact hm bb hbb
    rw [hrep, List.sum_replicate, smul_eq_mul]
  have hBpos : 0 < batches.length := List.length_pos.mpr hne
  refine ⟨h1, h2, ?_, ?_⟩
  · rw [h1, h2, Nat.mul_div_cancel_left _ hBpos]
  · intro hB hm1
    rw [h1, h2]
    have h3 : 2 * m ≤ batches.length * m := Nat.mul_le_mul_right m hB
    omega

/-- Witness for C10 on a Legacy observation with two batches of two files. -/
theorem claim_C10_witness :
    num_gpubox_files [[1, 2], [3, 4]] = 2 ∧
    num_gpubox_files [[1, 2], [3, 4]] < total_gpubox_files [[1, 2], [3, 4]] := by
  have h := claim_C10_gpubox_files_per_batch [[1, 2], [3, 4]] 2 (by decide) (by decide)
  exact ⟨h.1, h.2.2.2 (by norm_num) (by norm_num)⟩

/-- Modelled from the spec: read_by_baseline output layout (spec section 4.5
step 5, implementation not in the source tree) — outer axis baseline, then
fine channel, then the eight floats of four polarisations times (re, im). -/
def read_by_baseline (nbl nfc : Nat) (v : Nat → Nat → Nat → Int) : List Int :=
  (List.range nbl).flatMap (fun b =>
    (List.range nfc).flatMap (fun f => (List.range 8).map (v b f)))

/-- Modelled from the spec: read_by_frequency output layout (spec section
4.5 step 5, implementation not in the source tree) — outer axis fine
channel, then baseline, then the eight floats. -/
def read_by_frequency (nbl nfc : Nat) (v : Nat → Nat → Nat → Int) : List Int :=
  (List.range nfc).flatMap (fun f =>
    (List.range nbl).flatMap (fun b => (List.range 8).map (v b f)))

/-- Transpose the outer two axes of a flat [rows][cols][blocksize] list. -/
def transposeOuter (rows cols blocksize : Nat) (l : List Int) : List Int :=
  (List.range cols).flatMap (fun j =>
    (List.range rows).flatMap (fun i =>
      (l.drop ((i * cols + j) * blocksize)).take blocksize))

lemma flatMap_drop_blocks (g : Nat → List Int) (B : Nat) (hg : ∀ k, (g k).length = B)
    (i : Nat) : ∀ s n : Nat, i ≤ n →
    ((List.range' s n).flatMap g).drop (i * B) = (List.range' (s + i) (n - i)).flatMap g := by
  induction i with
  | zero =>
    intro s n _
    simp
  | succ i ih =>
    intro s n hin
    obtain ⟨m, rfl⟩ : ∃ m, n = m + 1 := ⟨n - 1, by omega⟩
    rw [List.range'_succ, List.flatMap_cons]
    have hB : (i + 1) * B = (g s).length + i * B := by rw [hg]; ring
    rw [hB, List.drop_append, ih (s + 1) m (by omega)]
    have h1 : s + 1 + i = s + (i + 1) := by omega
    have h2 : m - i = m + 1 - (i + 1) := by omega
    rw [h1, h2]

lemma flatMap_extract (g : Nat → List Int) (B : Nat) (hg : ∀ k, (g k).length = B)
    (n i : Nat) (hi : i < n) :
    (((List.range n).flatMap g).drop (i * B)).take B = g i := by
  rw [List.range_eq_range', flatMap_drop_blocks g B hg i 0 n (le_of_lt hi)]
  obtain ⟨m, hm⟩ : ∃ m, n - i = m + 1 := ⟨n - i - 1, by omega⟩
  rw [hm, List.range'_succ, List.flatMap_cons]
  simp only [Nat.zero_add]
  rw [← hg i, List.take_left]

lemma freqRow_length (nbl : Nat) (v : Nat → Nat → Nat → Int) (f : Nat) :
    ((List.range nbl).flatMap (fun b => (List.range 8).map (v b f))).length = nbl * 8 := by
  rw [List.length_flatMap]
  have hmap : List.map (List.length ∘ fun b => (List.range 8).map (v b f)) (List.range nbl)
      = List.map (fun _ => 8) (List.range nbl) := by
    apply List.map_congr_left
    intro b _
    simp
  rw [hmap, List.map_const', List.sum_replicate, List.length_range, smul_eq_mul]

lemma byFrequency_block (nbl nfc : Nat) (v : Nat → Nat → Nat → Int)
    (i j : Nat) (hi : i < nfc) (hj : j < nbl) :
    ((read_by_frequency nbl nfc v).drop ((i * nbl + j) * 8)).take 8 =
      (List.range 8).map (v j i) := by
  unfold read_by_frequency
  have hidx : (i * nbl + j) * 8 = i * (nbl * 8) + j * 8 := by ring
  rw [hidx, ← List.drop_drop, List.range_eq_range',
    flatMap_drop_blocks (fun f => (List.range nbl).flatMap (fun b => (List.range 8).map (v b f)))
      (nbl * 8) (freqRow_length nbl v) i 0 nfc (le_of_lt hi)]
  obtain ⟨m, hm⟩ : ∃ m, nfc - i = m + 1 := ⟨nfc - i - 1, by omega⟩
  rw [hm, List.range'_succ, List.flatMap_cons]
  simp only [Nat.zero_add]
  rw [List.drop_append_of_le_length (by rw [freqRow_length]; omega),
    List.take_append_of_le_length (by rw [List.length_drop, freqRow_length]; omega)]
  exact flatMap_extract (fun b => (List.range 8).map (v b i)) 8 (fun b => by simp) nbl j hj

/-- C8: for every baseline count, fine-channel count and HDU data, the
output of read_by_frequency with its outer [fine_chan][baseline] axes
transposed back equals the output of read_by_baseline on the same data. -/
theorem claim_C8_layout_roundtrip (nbl nfc : Nat) (v : Nat → Nat → Nat → Int) :
    transposeOuter nfc nbl 8 (read_by_frequency nbl nfc v) =
      read_by_baseline nbl nfc v := by
  unfold transposeOuter read_by_baseline
  apply List.flatMap_congr
  intro j hj
  apply List.flatMap_congr
  intro i hi
  exact byFrequency_block nbl nfc v i j (List.mem_range.mp hi) (List.mem_range.mp hj)
